import Mathlib

/-!
Verification of trainer/featurizer.py.

The module builds feature-column descriptors from static metadata, extends
them with derived columns (bucketized, crossed, embedding, indicator) under
three boolean flags, and partitions the result into wide (sparse) and deep
(dense) lists.

The metadata module itself is not part of the sources; following the
specification, it is modelled as four static tables mapping a field name to
its configuration, where the stats table maps a field name to a record that
may carry a mean and a variance.
-/

/-- Modelled from the spec: per-field statistics record of the metadata
stats table (a mean and a variance, either of which may be absent). -/
structure Stats where
  mean : Option Int
  var : Option Int
deriving DecidableEq

/-- Modelled from the spec: the four static metadata tables read by
featurizer.py (the metadata module is not among the sources). -/
structure Metadata where
  NUMERIC_FEATURE_NAMES_WITH_STATS : List (String × Stats)
  CATEGORICAL_FEATURE_NAMES_WITH_IDENTITY : List (String × Nat)
  CATEGORICAL_FEATURE_NAMES_WITH_VOCABULARY : List (String × List String)
  CATEGORICAL_FEATURE_NAMES_WITH_HASH_BUCKET : List (String × Nat)

/-- Experiment parameters: the three flags read by featurizer.py. -/
structure Args where
  embed_categorical_columns : Bool
  use_indicator_columns : Bool
  use_wide_columns : Bool
deriving DecidableEq

/-- Feature-column descriptors, one constructor per concrete
feature_column class used by featurizer.py.  A numeric column records the
normalizer closure as the pair of table values it captured (None when the
lookup raised KeyError). -/
inductive Column where
  | numeric (name : String) (normalizer : Option (Stats × Stats))
  | catIdentity (name : String) (numBuckets : Nat)
  | catVocab (name : String) (vocabularyList : List String)
  | catHashed (name : String) (hashBucketSize : Nat)
  | bucketized (source : Column) (boundaries : List Int)
  | crossed (keys : List String) (hashBucketSize : Nat)
  | embedding (source : Column) (dimension : Nat)
  | indicator (source : Column)
deriving DecidableEq

/-- math.ceil(math.sqrt(n)) for a natural number n. -/
def ceilSqrt (n : Nat) : Nat :=
  if Nat.sqrt n * Nat.sqrt n = n then Nat.sqrt n else Nat.sqrt n + 1

/-- Python dict assignment d[k] = v: replace in place when the key is
present, append otherwise. -/
def dictInsert (d : List (String × Column)) (k : String) (v : Column) :
    List (String × Column) :=
  if d.any (fun p => p.1 == k) then
    d.map (fun p => if p.1 == k then (k, v) else p)
  else
    d ++ [(k, v)]

/-- featurizer._create_feature_columns: build the base descriptors from the
metadata tables, in table order.  The normalizer lookup reproduces the
source exactly: it reads the keys "mean" and "var" of the whole stats
table (not of the per-field record), and a failed lookup (KeyError) yields
no normalizer. -/
def _create_feature_columns (metadata : Metadata) : List (String × Column) :=
  let feature_columns : List (String × Column) := []
  let feature_columns := metadata.NUMERIC_FEATURE_NAMES_WITH_STATS.foldl
    (fun fcs p =>
      dictInsert fcs p.1 (Column.numeric p.1
        (match List.lookup "mean" metadata.NUMERIC_FEATURE_NAMES_WITH_STATS,
               List.lookup "var" metadata.NUMERIC_FEATURE_NAMES_WITH_STATS with
         | some mean, some variance => some (mean, variance)
         | _, _ => none))) feature_columns
  let feature_columns := metadata.CATEGORICAL_FEATURE_NAMES_WITH_IDENTITY.foldl
    (fun fcs p => dictInsert fcs p.1 (Column.catIdentity p.1 p.2))
    feature_columns
  let feature_columns := metadata.CATEGORICAL_FEATURE_NAMES_WITH_VOCABULARY.foldl
    (fun fcs p => dictInsert fcs p.1 (Column.catVocab p.1 p.2))
    feature_columns
  let feature_columns := metadata.CATEGORICAL_FEATURE_NAMES_WITH_HASH_BUCKET.foldl
    (fun fcs p => dictInsert fcs p.1 (Column.catHashed p.1 p.2))
    feature_columns
  feature_columns

/-- Body of the for-loop of featurizer._extend_feature_columns: the
contributions of one column, in source order (vocabulary block, identity
block, hashed block, then the numeric / use_wide_columns branch). -/
def extendOne (column : Column) (args : Args) : List Column :=
  (match column with
   | Column.catVocab nm vocab =>
       (if args.embed_categorical_columns then
          [Column.embedding (Column.catVocab nm vocab) (ceilSqrt vocab.length)]
        else []) ++
       (if args.use_indicator_columns then
          [Column.indicator (Column.catVocab nm vocab)]
        else [])
   | _ => []) ++
  (match column with
   | Column.catIdentity nm numBuckets =>
       (if args.embed_categorical_columns then
          [Column.embedding (Column.catIdentity nm numBuckets)
            (ceilSqrt numBuckets)]
        else []) ++
       (if args.use_indicator_columns then
          [Column.indicator (Column.catIdentity nm numBuckets)]
        else [])
   | _ => []) ++
  (match column with
   | Column.catHashed nm sz =>
       if args.use_indicator_columns then
         [Column.indicator (Column.catHashed nm sz)]
       else []
   | _ => []) ++
  (match column with
   | Column.numeric nm nf => [Column.numeric nm nf]
   | c => if args.use_wide_columns then [c] else [])

/-- The for-loop of featurizer._extend_feature_columns over each entry of
the feature_columns dict, appending the contributions of each column. -/
def loopExtend (feature_columns : List (String × Column)) (args : Args) :
    List Column :=
  match feature_columns with
  | [] => []
  | p :: rest => extendOne p.2 args ++ loopExtend rest args

/-- featurizer._extend_feature_columns: unconditionally create the two
bucketized columns, the cross and the dimension-10 company embedding (a
missing key propagates as a KeyError, modelled as none), then run the loop
over all columns. -/
def _extend_feature_columns (feature_columns : List (String × Column))
    (args : Args) : Option (List Column) :=
  match List.lookup "trip_miles" feature_columns with
  | none => none
  | some trip_miles =>
    match List.lookup "trip_seconds" feature_columns with
    | none => none
    | some trip_seconds =>
      match List.lookup "company" feature_columns with
      | none => none
      | some company =>
        some ([Column.bucketized trip_miles [5, 10, 15, 20, 25, 30, 35, 40, 45, 50],
               Column.bucketized trip_seconds [900, 1800, 2700, 3600],
               Column.crossed ["trip_miles", "trip_seconds"] 10000,
               Column.embedding company 10] ++
              loopExtend feature_columns args)

/-- The dense-columns comprehension condition of
featurizer._get_sparse_and_dense_columns. -/
def isDenseColumn (column : Column) : Bool :=
  match column with
  | Column.numeric _ _ => true
  | Column.embedding _ _ => true
  | Column.indicator _ => true
  | _ => false

/-- The sparse-columns comprehension condition of
featurizer._get_sparse_and_dense_columns. -/
def isSparseColumn (column : Column) : Bool :=
  match column with
  | Column.catVocab _ _ => true
  | Column.catIdentity _ _ => true
  | Column.bucketized _ _ => true
  | Column.crossed _ _ => true
  | _ => false

/-- featurizer._get_sparse_and_dense_columns: returns
(sparse_columns, dense_columns). -/
def _get_sparse_and_dense_columns (feature_columns : List Column) :
    List Column × List Column :=
  let dense_columns := feature_columns.filter isDenseColumn
  let sparse_columns := feature_columns.filter isSparseColumn
  (sparse_columns, dense_columns)

/-- featurizer.create_wide_and_deep_columns: base columns, extension, then
the sparse/dense split; wide = sparse, deep = dense. -/
def create_wide_and_deep_columns (metadata : Metadata) (args : Args) :
    Option (List Column × List Column) :=
  match _extend_feature_columns (_create_feature_columns metadata) args with
  | none => none
  | some feature_columns => some (_get_sparse_and_dense_columns feature_columns)

/-- Descriptor kinds, used to state the claims. -/
inductive Kind where
  | numeric
  | catIdentity
  | catVocab
  | catHashed
  | bucketized
  | crossed
  | embedding
  | indicator
deriving DecidableEq

/-- The kind of a descriptor. -/
def kind : Column → Kind
  | Column.numeric _ _ => Kind.numeric
  | Column.catIdentity _ _ => Kind.catIdentity
  | Column.catVocab _ _ => Kind.catVocab
  | Column.catHashed _ _ => Kind.catHashed
  | Column.bucketized _ _ => Kind.bucketized
  | Column.crossed _ _ => Kind.crossed
  | Column.embedding _ _ => Kind.embedding
  | Column.indicator _ => Kind.indicator

/-- A base descriptor: one of the four kinds _create_feature_columns can
produce. -/
def isBaseColumn (c : Column) : Bool :=
  match c with
  | Column.numeric _ _ => true
  | Column.catIdentity _ _ => true
  | Column.catVocab _ _ => true
  | Column.catHashed _ _ => true
  | _ => false

/-- Categorical base kinds. -/
def isCategoricalKind (c : Column) : Bool :=
  match kind c with
  | Kind.catIdentity => true
  | Kind.catVocab => true
  | Kind.catHashed => true
  | _ => false

/-- Identity- or vocabulary-categorical kinds (the pass-through descriptors
that reach the wide list). -/
def isIdentityOrVocab (c : Column) : Bool :=
  match kind c with
  | Kind.catIdentity => true
  | Kind.catVocab => true
  | _ => false

/-- Is the descriptor an embedding column. -/
def isEmbeddingColumn (c : Column) : Bool :=
  match c with
  | Column.embedding _ _ => true
  | _ => false

/-- Is the descriptor an indicator column. -/
def isIndicatorColumn (c : Column) : Bool :=
  match c with
  | Column.indicator _ => true
  | _ => false

/-- Does the derived descriptor wrap the given base descriptor. -/
def derivesFrom (derived base : Column) : Bool :=
  match derived with
  | Column.bucketized s _ => s == base
  | Column.embedding s _ => s == base
  | Column.indicator s => s == base
  | _ => false

/-- The embedding descriptors that the loop of _extend_feature_columns adds
for one base column when embed_categorical_columns is set. -/
def embedOf (c : Column) : List Column :=
  match c with
  | Column.catIdentity nm n =>
      [Column.embedding (Column.catIdentity nm n) (ceilSqrt n)]
  | Column.catVocab nm v =>
      [Column.embedding (Column.catVocab nm v) (ceilSqrt v.length)]
  | _ => []

/-- The embedding descriptors the loop adds across a whole dict. -/
def loopEmbeddings (feature_columns : List (String × Column)) : List Column :=
  match feature_columns with
  | [] => []
  | p :: rest => embedOf p.2 ++ loopEmbeddings rest

/-- A sample metadata table covering all four field types. -/
def mdEx : Metadata :=
  { NUMERIC_FEATURE_NAMES_WITH_STATS :=
      [("trip_miles", ⟨some 10, some 25⟩), ("trip_seconds", ⟨none, none⟩)],
    CATEGORICAL_FEATURE_NAMES_WITH_IDENTITY := [("trip_month", 12)],
    CATEGORICAL_FEATURE_NAMES_WITH_VOCABULARY :=
      [("company", ["a", "b", "c", "d", "e"]),
       ("payment_type", ["cash", "credit"])],
    CATEGORICAL_FEATURE_NAMES_WITH_HASH_BUCKET := [("pickup_area", 50)] }

/-- A metadata table whose single numeric field carries both a mean and a
variance in its own stats record. -/
def mdStats : Metadata :=
  { NUMERIC_FEATURE_NAMES_WITH_STATS := [("trip_miles", ⟨some 2, some 4⟩)],
    CATEGORICAL_FEATURE_NAMES_WITH_IDENTITY := [],
    CATEGORICAL_FEATURE_NAMES_WITH_VOCABULARY := [],
    CATEGORICAL_FEATURE_NAMES_WITH_HASH_BUCKET := [] }

/-- A metadata table in which the company field is a hashed-categorical
field. -/
def mdCompanyHashed : Metadata :=
  { NUMERIC_FEATURE_NAMES_WITH_STATS :=
      [("trip_miles", ⟨none, none⟩), ("trip_seconds", ⟨none, none⟩)],
    CATEGORICAL_FEATURE_NAMES_WITH_IDENTITY := [],
    CATEGORICAL_FEATURE_NAMES_WITH_VOCABULARY := [],
    CATEGORICAL_FEATURE_NAMES_WITH_HASH_BUCKET := [("company", 100)] }

/-- All three flags disabled. -/
def argsNone : Args := ⟨false, false, false⟩

/-- Only use_wide_columns enabled. -/
def argsWide : Args := ⟨false, false, true⟩

/-- Only embed_categorical_columns enabled. -/
def argsEmbed : Args := ⟨true, false, false⟩

/-- The base columns of the sample metadata. -/
def fcsEx : List (String × Column) := _create_feature_columns mdEx

/-- The extended columns of the sample metadata with only use_wide_columns
enabled. -/
def extWide : List Column := (_extend_feature_columns fcsEx argsWide).getD []

/-- The extended columns of the sample metadata with all flags disabled. -/
def extNone : List Column := (_extend_feature_columns fcsEx argsNone).getD []

/-- The extended columns of the sample metadata with only
embed_categorical_columns enabled. -/
def extEmbed : List Column := (_extend_feature_columns fcsEx argsEmbed).getD []

/-- Wide output of the sample metadata with only use_wide_columns
enabled. -/
def wideWide : List Column :=
  ((create_wide_and_deep_columns mdEx argsWide).getD ([], [])).1

/-- Deep output of the sample metadata with only use_wide_columns
enabled. -/
def deepWide : List Column :=
  ((create_wide_and_deep_columns mdEx argsWide).getD ([], [])).2

/-- Wide output of the sample metadata with all flags disabled. -/
def wideNone : List Column :=
  ((create_wide_and_deep_columns mdEx argsNone).getD ([], [])).1

/-- Deep output of the sample metadata with all flags disabled. -/
def deepNone : List Column :=
  ((create_wide_and_deep_columns mdEx argsNone).getD ([], [])).2

/-- Wide output of the company-hashed metadata with all flags disabled. -/
def wideCoH : List Column :=
  ((create_wide_and_deep_columns mdCompanyHashed argsNone).getD ([], [])).1

/-- Deep output of the company-hashed metadata with all flags disabled. -/
def deepCoH : List Column :=
  ((create_wide_and_deep_columns mdCompanyHashed argsNone).getD ([], [])).2

/-- The numeric trip_miles base column of the sample metadata. -/
def tmCol : Column := Column.numeric "trip_miles" none

/-- The hashed pickup_area base column of the sample metadata. -/
def paCol : Column := Column.catHashed "pickup_area" 50

/-- The vocabulary payment_type base column of the sample metadata. -/
def pyCol : Column := Column.catVocab "payment_type" ["cash", "credit"]

/-- The vocabulary company base column of the sample metadata. -/
def coCol : Column := Column.catVocab "company" ["a", "b", "c", "d", "e"]

/-- Membership after a dict assignment: the pair was already there or it
carries the assigned value. -/
lemma mem_dictInsert {q : String × Column} {d : List (String × Column)}
    {k : String} {v : Column} (hq : q ∈ dictInsert d k v) :
    q ∈ d ∨ q.2 = v := by
  unfold dictInsert at hq
  split at hq
  · rcases List.mem_map.mp hq with ⟨p, hp, hpq⟩
    by_cases hk : p.1 == k
    · right
      rw [if_pos hk] at hpq
      rw [← hpq]
    · left
      rw [if_neg hk] at hpq
      rw [← hpq]
      exact hp
  · rcases List.mem_append.mp hq with h | h
    · exact Or.inl h
    · right
      rw [List.mem_singleton.mp h]

/-- A value predicate is preserved by a dict assignment of a value that
satisfies it. -/
lemma dictInsert_preserve (P : Column → Prop) {d : List (String × Column)}
    {k : String} {v : Column} (hd : ∀ q ∈ d, P q.2) (hv : P v) :
    ∀ q ∈ dictInsert d k v, P q.2 := by
  intro q hq
  rcases mem_dictInsert hq with h | h
  · exact hd q h
  · rw [h]
    exact hv

/-- A value predicate preserved by each step is preserved by the fold. -/
lemma foldl_preserve {β : Type} (P : Column → Prop)
    {step : List (String × Column) → β → List (String × Column)}
    (hstep : ∀ fcs b, (∀ q ∈ fcs, P q.2) → ∀ q ∈ step fcs b, P q.2)
    (l : List β) (init : List (String × Column))
    (hinit : ∀ q ∈ init, P q.2) :
    ∀ q ∈ List.foldl step init l, P q.2 := by
  induction l generalizing init with
  | nil => exact hinit
  | cons b rest ih => exact ih (step init b) (hstep init b hinit)

/-- Every column produced by _create_feature_columns is a base column. -/
lemma create_base (md : Metadata) :
    ∀ q ∈ _create_feature_columns md, isBaseColumn q.2 = true := by
  simp only [_create_feature_columns]
  refine foldl_preserve (fun c => isBaseColumn c = true) ?_ _ _ ?_
  · intro fcs b hf
    exact dictInsert_preserve (fun c => isBaseColumn c = true) hf rfl
  refine foldl_preserve (fun c => isBaseColumn c = true) ?_ _ _ ?_
  · intro fcs b hf
    exact dictInsert_preserve (fun c => isBaseColumn c = true) hf rfl
  refine foldl_preserve (fun c => isBaseColumn c = true) ?_ _ _ ?_
  · intro fcs b hf
    exact dictInsert_preserve (fun c => isBaseColumn c = true) hf rfl
  refine foldl_preserve (fun c => isBaseColumn c = true) ?_ _ _ ?_
  · intro fcs b hf
    exact dictInsert_preserve (fun c => isBaseColumn c = true) hf rfl
  intro q hq
  exact absurd hq (List.not_mem_nil q)

/-- Successful extension yields the four unconditional derived columns
followed by the per-column loop contributions. -/
lemma extend_eq_some {fcs : List (String × Column)} {args : Args}
    {ext : List Column}
    (h : _extend_feature_columns fcs args = some ext) :
    ∃ tm ts co,
      List.lookup "trip_miles" fcs = some tm ∧
      List.lookup "trip_seconds" fcs = some ts ∧
      List.lookup "company" fcs = some co ∧
      ext = [Column.bucketized tm [5, 10, 15, 20, 25, 30, 35, 40, 45, 50],
             Column.bucketized ts [900, 1800, 2700, 3600],
             Column.crossed ["trip_miles", "trip_seconds"] 10000,
             Column.embedding co 10] ++ loopExtend fcs args := by
  unfold _extend_feature_columns at h
  cases h1 : List.lookup "trip_miles" fcs with
  | none => rw [h1] at h; exact Option.noConfusion h
  | some tm =>
    rw [h1] at h
    cases h2 : List.lookup "trip_seconds" fcs with
    | none => rw [h2] at h; exact Option.noConfusion h
    | some ts =>
      rw [h2] at h
      cases h3 : List.lookup "company" fcs with
      | none => rw [h3] at h; exact Option.noConfusion h
      | some co =>
        rw [h3] at h
        exact ⟨tm, ts, co, rfl, rfl, rfl, (Option.some.inj h).symm⟩

/-- A successful pipeline yields the sparse/dense split of some
successfully extended list. -/
lemma create_eq_some {md : Metadata} {args : Args} {w d : List Column}
    (h : create_wide_and_deep_columns md args = some (w, d)) :
    ∃ ext, _extend_feature_columns (_create_feature_columns md) args = some ext ∧
      w = ext.filter isSparseColumn ∧ d = ext.filter isDenseColumn := by
  unfold create_wide_and_deep_columns at h
  cases hE : _extend_feature_columns (_create_feature_columns md) args with
  | none => rw [hE] at h; exact Option.noConfusion h
  | some ext =>
    rw [hE] at h
    have h2 : _get_sparse_and_dense_columns ext = (w, d) := Option.some.inj h
    refine ⟨ext, rfl, ?_, ?_⟩
    · exact congrArg Prod.fst h2.symm
    · exact congrArg Prod.snd h2.symm

/-- Contributions of a column present in the dict are in the loop
output. -/
lemma mem_loopExtend_of {fcs : List (String × Column)} {args : Args}
    {p : String × Column} (hp : p ∈ fcs) {x : Column}
    (hx : x ∈ extendOne p.2 args) : x ∈ loopExtend fcs args := by
  induction fcs with
  | nil => cases hp
  | cons q rest ih =>
    rw [loopExtend]
    rcases List.mem_cons.mp hp with h | h
    · exact List.mem_append_left _ (h ▸ hx)
    · exact List.mem_append_right _ (ih h)

/-- Every element of the loop output is a contribution of some column of
the dict. -/
lemma mem_of_loopExtend {fcs : List (String × Column)} {args : Args}
    {x : Column} (hx : x ∈ loopExtend fcs args) :
    ∃ p ∈ fcs, x ∈ extendOne p.2 args := by
  induction fcs with
  | nil => cases hx
  | cons q rest ih =>
    rw [loopExtend] at hx
    rcases List.mem_append.mp hx with h | h
    · exact ⟨q, List.mem_cons_self _ _, h⟩
    · rcases ih h with ⟨p, hp, hpe⟩
      exact ⟨p, List.mem_cons_of_mem _ hp, hpe⟩

/-- Sparse part of the contributions of one column: exactly the pass-through
of a sparse column, and only when use_wide_columns is set. -/
lemma extendOne_filter_sparse (c : Column) (e i w : Bool) :
    (extendOne c ⟨e, i, w⟩).filter isSparseColumn =
      if w && isSparseColumn c then [c] else [] := by
  cases c <;> cases e <;> cases i <;> cases w <;> rfl

/-- Embedding part of the contributions of one base column when
embed_categorical_columns is set. -/
lemma extendOne_filter_embedding_on (c : Column) (i w : Bool)
    (hb : isBaseColumn c = true) :
    (extendOne c ⟨true, i, w⟩).filter isEmbeddingColumn = embedOf c := by
  cases c <;> first
    | (cases i <;> cases w <;> rfl)
    | exact Bool.noConfusion hb

/-- No embedding is contributed for a base column when
embed_categorical_columns is unset. -/
lemma extendOne_filter_embedding_off (c : Column) (i w : Bool)
    (hb : isBaseColumn c = true) :
    (extendOne c ⟨false, i, w⟩).filter isEmbeddingColumn = [] := by
  cases c <;> first
    | (cases i <;> cases w <;> rfl)
    | exact Bool.noConfusion hb

/-- No indicator is contributed for a base column when
use_indicator_columns is unset. -/
lemma extendOne_filter_indicator_off (c : Column) (e w : Bool)
    (hb : isBaseColumn c = true) :
    (extendOne c ⟨e, false, w⟩).filter isIndicatorColumn = [] := by
  cases c <;> first
    | (cases e <;> cases w <;> rfl)
    | exact Bool.noConfusion hb

/-- No categorical column is contributed when use_wide_columns is unset. -/
lemma extendOne_filter_categorical_off (c : Column) (e i : Bool) :
    (extendOne c ⟨e, i, false⟩).filter isCategoricalKind = [] := by
  cases c <;> cases e <;> cases i <;> rfl

/-- Sparse part of the loop output when use_wide_columns is unset. -/
lemma loopExtend_filter_sparse_off (fcs : List (String × Column)) (e i : Bool) :
    (loopExtend fcs ⟨e, i, false⟩).filter isSparseColumn = [] := by
  induction fcs with
  | nil => rfl
  | cons p rest ih =>
    rw [loopExtend, List.filter_append, ih, extendOne_filter_sparse]
    simp

/-- Sparse part of the loop output when use_wide_columns is set: exactly the
identity- and vocabulary-categorical pass-throughs, in dict order. -/
lemma loopExtend_filter_sparse_on (fcs : List (String × Column)) (e i : Bool)
    (hb : ∀ q ∈ fcs, isBaseColumn q.2 = true) :
    (loopExtend fcs ⟨e, i, true⟩).filter isSparseColumn =
      (fcs.filter (fun p => isIdentityOrVocab p.2)).map Prod.snd := by
  induction fcs with
  | nil => rfl
  | cons p rest ih =>
    have hp : isBaseColumn p.2 = true := hb p (List.mem_cons_self _ _)
    have hrest : ∀ q ∈ rest, isBaseColumn q.2 = true :=
      fun q hq => hb q (List.mem_cons_of_mem _ hq)
    rw [loopExtend, List.filter_append, ih hrest, extendOne_filter_sparse,
      List.filter_cons]
    rcases p with ⟨nm, c⟩
    cases c <;>
      first
        | exact Bool.noConfusion hp
        | simp [isSparseColumn, isIdentityOrVocab, kind]

/-- Embedding part of the loop output when embed_categorical_columns is
set: one embedding per identity or vocabulary column, in dict order. -/
lemma loopExtend_filter_embedding_on (fcs : List (String × Column))
    (i w : Bool) (hb : ∀ q ∈ fcs, isBaseColumn q.2 = true) :
    (loopExtend fcs ⟨true, i, w⟩).filter isEmbeddingColumn =
      loopEmbeddings fcs := by
  induction fcs with
  | nil => rfl
  | cons p rest ih =>
    have hp : isBaseColumn p.2 = true := hb p (List.mem_cons_self _ _)
    have hrest : ∀ q ∈ rest, isBaseColumn q.2 = true :=
      fun q hq => hb q (List.mem_cons_of_mem _ hq)
    rw [loopExtend, List.filter_append, ih hrest,
      extendOne_filter_embedding_on p.2 i w hp, loopEmbeddings]

/-- No embedding in the loop output when embed_categorical_columns is
unset. -/
lemma loopExtend_filter_embedding_off (fcs : List (String × Column))
    (i w : Bool) (hb : ∀ q ∈ fcs, isBaseColumn q.2 = true) :
    (loopExtend fcs ⟨false, i, w⟩).filter isEmbeddingColumn = [] := by
  induction fcs with
  | nil => rfl
  | cons p rest ih =>
    have hp : isBaseColumn p.2 = true := hb p (List.mem_cons_self _ _)
    have hrest : ∀ q ∈ rest, isBaseColumn q.2 = true :=
      fun q hq => hb q (List.mem_cons_of_mem _ hq)
    rw [loopExtend, List.filter_append, ih hrest,
      extendOne_filter_embedding_off p.2 i w hp]
    rfl

/-- No indicator in the loop output when use_indicator_columns is unset. -/
lemma loopExtend_filter_indicator_off (fcs : List (String × Column))
    (e w : Bool) (hb : ∀ q ∈ fcs, isBaseColumn q.2 = true) :
    (loopExtend fcs ⟨e, false, w⟩).filter isIndicatorColumn = [] := by
  induction fcs with
  | nil => rfl
  | cons p rest ih =>
    have hp : isBaseColumn p.2 = true := hb p (List.mem_cons_self _ _)
    have hrest : ∀ q ∈ rest, isBaseColumn q.2 = true :=
      fun q hq => hb q (List.mem_cons_of_mem _ hq)
    rw [loopExtend, List.filter_append, ih hrest,
      extendOne_filter_indicator_off p.2 e w hp]
    rfl

/-- No categorical column in the loop output when use_wide_columns is
unset. -/
lemma loopExtend_filter_categorical_off (fcs : List (String × Column))
    (e i : Bool) :
    (loopExtend fcs ⟨e, i, false⟩).filter isCategoricalKind = [] := by
  induction fcs with
  | nil => rfl
  | cons p rest ih =>
    rw [loopExtend, List.filter_append, ih,
      extendOne_filter_categorical_off]
    rfl

/-- Any contribution of one column is the column itself, one of its loop
embeddings, or its indicator (the latter only when use_indicator_columns
is set). -/
lemma extendOne_subset (pc : Column) (args : Args) :
    ∀ x ∈ extendOne pc args,
      x = pc ∨ x ∈ embedOf pc ∨
        (x = Column.indicator pc ∧ args.use_indicator_columns = true) := by
  rcases args with ⟨e, i, w⟩
  intro x hx
  cases pc <;> cases e <;> cases i <;> cases w <;>
    simp_all [extendOne, embedOf] <;> tauto

/-- C1: code-bug evidence.  In mdStats the numeric field trip_miles has
both a mean and a variance in its own stats record, yet
_create_feature_columns attaches no normalizer to its descriptor: the
source reads the literal keys "mean" and "var" at the top level of the
stats table instead of inside the per-field record, the lookup raises
KeyError, and the fallback produces the unnormalized descriptor. -/
theorem C1_code_bug_eval :
    List.lookup "trip_miles" mdStats.NUMERIC_FEATURE_NAMES_WITH_STATS =
      some ⟨some 2, some 4⟩ ∧
    _create_feature_columns mdStats =
      [("trip_miles", Column.numeric "trip_miles" none)] := by
  exact ⟨rfl, rfl⟩

/-- C6: the classification of _get_sparse_and_dense_columns is exactly:
sparse iff vocabulary-categorical, identity-categorical, bucketized or
crossed; dense iff numeric, embedding or indicator. -/
theorem C6_split_rule (cols : List Column) :
    (_get_sparse_and_dense_columns cols).1 =
      cols.filter (fun c =>
        kind c == Kind.catVocab || kind c == Kind.catIdentity ||
        kind c == Kind.bucketized || kind c == Kind.crossed) ∧
    (_get_sparse_and_dense_columns cols).2 =
      cols.filter (fun c =>
        kind c == Kind.numeric || kind c == Kind.embedding ||
        kind c == Kind.indicator) := by
  constructor
  · exact List.filter_congr (fun c _ => by cases c <;> rfl)
  · exact List.filter_congr (fun c _ => by cases c <;> rfl)

/-- C7: with use_wide_columns disabled, no categorical base descriptor
(identity, vocabulary or hashed kind) appears in the extended set: the
as-is pass-through happens only when the flag is enabled. -/
theorem C7_pass_through_gated (md : Metadata) (args : Args)
    (ext : List Column) (hw : args.use_wide_columns = false)
    (hext : _extend_feature_columns (_create_feature_columns md) args =
      some ext) :
    ∀ c ∈ ext, isCategoricalKind c = false := by
  rcases args with ⟨e, i, w⟩
  have hw2 : w = false := hw
  subst hw2
  rcases extend_eq_some hext with ⟨tm, ts, co, h1, h2, h3, hE⟩
  subst hE
  intro c hc
  rcases List.mem_append.mp hc with h | h
  · simp only [List.mem_cons, List.not_mem_nil, or_false] at h
    rcases h with rfl | rfl | rfl | rfl <;> rfl
  · have hnil := loopExtend_filter_categorical_off (_create_feature_columns md) e i
    have hnc := List.filter_eq_nil_iff.mp hnil c h
    cases hcb : isCategoricalKind c with
    | false => rfl
    | true => exact absurd hcb hnc

/-- C7 witness: at the sample metadata with all flags disabled, the
bucketized trip_miles descriptor of the extended set is not of categorical
kind. -/
theorem C7_witness :
    isCategoricalKind
      (Column.bucketized tmCol [5, 10, 15, 20, 25, 30, 35, 40, 45, 50]) =
      false :=
  C7_pass_through_gated mdEx argsNone extNone rfl rfl
    (Column.bucketized tmCol [5, 10, 15, 20, 25, 30, 35, 40, 45, 50])
    (by decide)

/-- C8: create_wide_and_deep_columns is deterministic: two runs on the same
metadata and flags return the same wide and deep lists. -/
theorem C8_deterministic (md : Metadata) (args : Args)
    (w1 d1 w2 d2 : List Column)
    (h1 : create_wide_and_deep_columns md args = some (w1, d1))
    (h2 : create_wide_and_deep_columns md args = some (w2, d2)) :
    w1 = w2 ∧ d1 = d2 := by
  rw [h1] at h2
  have h3 := Option.some.inj h2
  exact ⟨congrArg Prod.fst h3, congrArg Prod.snd h3⟩

/-- C8 witness: determinism applied at the sample metadata with all flags
disabled. -/
theorem C8_witness : wideNone = wideNone ∧ deepNone = deepNone :=
  C8_deterministic mdEx argsNone wideNone deepNone wideNone deepNone rfl rfl

/-- C9: every numeric base descriptor reaches the deep output under every
flag configuration. -/
theorem C9_numeric_in_deep (md : Metadata) (args : Args) (wL dL : List Column)
    (h : create_wide_and_deep_columns md args = some (wL, dL)) :
    ∀ p ∈ _create_feature_columns md, kind p.2 = Kind.numeric → p.2 ∈ dL := by
  rcases create_eq_some h with ⟨ext, hext, hw, hd⟩
  subst hd
  rcases extend_eq_some hext with ⟨tm, ts, co, h1, h2, h3, hE⟩
  subst hE
  rintro ⟨nm, c⟩ hp hk
  have hx : c ∈ extendOne c args := by
    cases c <;> first | exact Kind.noConfusion hk | simp [extendOne]
  have hloop : c ∈ loopExtend (_create_feature_columns md) args :=
    mem_loopExtend_of hp hx
  refine List.mem_filter.mpr ⟨List.mem_append_right _ hloop, ?_⟩
  cases c <;> first | exact Kind.noConfusion hk | rfl

/-- C9 witness: the numeric trip_miles descriptor is in the deep output of
the sample metadata with all flags disabled. -/
theorem C9_witness : tmCol ∈ deepNone :=
  C9_numeric_in_deep mdEx argsNone wideNone deepNone rfl
    ("trip_miles", tmCol) (by decide) rfl

/-- C2 counterexample: with use_wide_columns enabled, the hashed
pickup_area descriptor is in the extended set yet appears in neither the
wide nor the deep output, so the two lists do not cover the extended
set. -/
theorem C2_counterexample :
    _extend_feature_columns (_create_feature_columns mdEx) argsWide =
      some extWide ∧
    create_wide_and_deep_columns mdEx argsWide = some (wideWide, deepWide) ∧
    paCol ∈ extWide ∧ paCol ∉ wideWide ∧ paCol ∉ deepWide := by
  refine ⟨rfl, rfl, ?_, ?_, ?_⟩ <;> decide

/-- C2 (amended): every extended descriptor that is not hashed-categorical
appears in exactly one of the wide and deep outputs; a hashed-categorical
descriptor of the extended set appears in neither. -/
theorem C2_partition (md : Metadata) (args : Args) (ext wL dL : List Column)
    (hext : _extend_feature_columns (_create_feature_columns md) args =
      some ext)
    (hwd : create_wide_and_deep_columns md args = some (wL, dL)) :
    ∀ c ∈ ext,
      (kind c = Kind.catHashed → c ∉ wL ∧ c ∉ dL) ∧
      (kind c ≠ Kind.catHashed →
        (c ∈ wL ∧ c ∉ dL) ∨ (c ∈ dL ∧ c ∉ wL)) := by
  rcases create_eq_some hwd with ⟨ext2, hext2, hw, hd⟩
  rw [hext] at hext2
  have hee : ext2 = ext := (Option.some.inj hext2).symm
  subst hee
  subst hw
  subst hd
  intro c hc
  constructor
  · intro hk
    have hcs : isSparseColumn c = false ∧ isDenseColumn c = false := by
      cases c <;> first | exact ⟨rfl, rfl⟩ | exact Kind.noConfusion hk
    constructor
    · intro hmem
      have := (List.mem_filter.mp hmem).2
      rw [hcs.1] at this
      exact Bool.noConfusion this
    · intro hmem
      have := (List.mem_filter.mp hmem).2
      rw [hcs.2] at this
      exact Bool.noConfusion this
  · intro hk
    have hsplit :
        (isSparseColumn c = true ∧ isDenseColumn c = false) ∨
          (isDenseColumn c = true ∧ isSparseColumn c = false) := by
      cases c <;>
        first
          | exact absurd rfl hk
          | exact Or.inl ⟨rfl, rfl⟩
          | exact Or.inr ⟨rfl, rfl⟩
    rcases hsplit with ⟨hs, hd2⟩ | ⟨hd2, hs⟩
    · left
      refine ⟨List.mem_filter.mpr ⟨hc, hs⟩, fun hmem => ?_⟩
      have := (List.mem_filter.mp hmem).2
      rw [hd2] at this
      exact Bool.noConfusion this
    · right
      refine ⟨List.mem_filter.mpr ⟨hc, hd2⟩, fun hmem => ?_⟩
      have := (List.mem_filter.mp hmem).2
      rw [hs] at this
      exact Bool.noConfusion this

/-- C2 witness: the numeric trip_miles descriptor of the extended set lands
in the deep output and not in the wide output. -/
theorem C2_witness : tmCol ∈ deepNone ∧ tmCol ∉ wideNone := by
  have h :=
    (C2_partition mdEx argsNone extNone wideNone deepNone rfl rfl tmCol
      (by decide)).2 (by decide)
  exact h.resolve_left (by decide)

/-- C3 counterexample: the vocabulary-categorical payment_type descriptor
is in the wide output when use_wide_columns is enabled but is gone when it
is disabled, so vocabulary-categorical wide descriptors are not left
untouched by the toggle. -/
theorem C3_counterexample :
    create_wide_and_deep_columns mdEx argsWide = some (wideWide, deepWide) ∧
    create_wide_and_deep_columns mdEx argsNone = some (wideNone, deepNone) ∧
    argsWide = ⟨false, false, true⟩ ∧
    argsNone = ⟨false, false, false⟩ ∧
    kind pyCol = Kind.catVocab ∧
    pyCol ∈ wideWide ∧ pyCol ∉ wideNone := by
  refine ⟨rfl, rfl, rfl, rfl, rfl, ?_, ?_⟩ <;> decide

/-- C3 (amended): with the other two flags fixed, the wide output under
use_wide_columns = true is the wide output under use_wide_columns = false
followed by exactly the identity- and vocabulary-categorical pass-through
descriptors; the bucketized and crossed descriptors are untouched (and
hashed pass-throughs never reach the wide output). -/
theorem C3_wide_toggle (md : Metadata) (e i : Bool) (extT extF : List Column)
    (hT : _extend_feature_columns (_create_feature_columns md) ⟨e, i, true⟩ =
      some extT)
    (hF : _extend_feature_columns (_create_feature_columns md) ⟨e, i, false⟩ =
      some extF) :
    (_get_sparse_and_dense_columns extT).1 =
      (_get_sparse_and_dense_columns extF).1 ++
        ((_create_feature_columns md).filter
          (fun p => isIdentityOrVocab p.2)).map Prod.snd := by
  rcases extend_eq_some hT with ⟨tm, ts, co, h1, h2, h3, hET⟩
  rcases extend_eq_some hF with ⟨tm2, ts2, co2, g1, g2, g3, hEF⟩
  have htm : tm2 = tm := Option.some.inj (g1.symm.trans h1)
  have hts : ts2 = ts := Option.some.inj (g2.symm.trans h2)
  have hco : co2 = co := Option.some.inj (g3.symm.trans h3)
  subst htm hts hco hET hEF
  simp only [_get_sparse_and_dense_columns]
  rw [List.filter_append, List.filter_append,
    loopExtend_filter_sparse_on _ e i (create_base md),
    loopExtend_filter_sparse_off]
  simp

/-- C3 witness: the toggle equation at the sample metadata with the other
two flags disabled. -/
theorem C3_witness :
    (_get_sparse_and_dense_columns extWide).1 =
      (_get_sparse_and_dense_columns extNone).1 ++
        ((_create_feature_columns mdEx).filter
          (fun p => isIdentityOrVocab p.2)).map Prod.snd :=
  C3_wide_toggle mdEx false false extWide extNone rfl rfl

/-- C4 counterexample: with embed_categorical_columns enabled, the hashed
pickup_area categorical field receives no embedding descriptor at all in
the extended set. -/
theorem C4_counterexample :
    argsEmbed.embed_categorical_columns = true ∧
    _extend_feature_columns (_create_feature_columns mdEx) argsEmbed =
      some extEmbed ∧
    isCategoricalKind paCol = true ∧
    extEmbed.all (fun c => !(isEmbeddingColumn c && derivesFrom c paCol)) =
      true := by
  refine ⟨rfl, rfl, rfl, ?_⟩
  decide

/-- C4 (amended): with embed_categorical_columns enabled, the embeddings of
the extended set are exactly the unconditional dimension-10 company
embedding followed by one embedding per identity- and
vocabulary-categorical field with dimension ceil(sqrt(bucket count or
vocabulary size)); hashed-categorical fields receive none. -/
theorem C4_embeddings (md : Metadata) (args : Args) (ext : List Column)
    (co : Column)
    (he : args.embed_categorical_columns = true)
    (hext : _extend_feature_columns (_create_feature_columns md) args =
      some ext)
    (hco : List.lookup "company" (_create_feature_columns md) = some co) :
    ext.filter isEmbeddingColumn =
      Column.embedding co 10 ::
        loopEmbeddings (_create_feature_columns md) := by
  rcases extend_eq_some hext with ⟨tm, ts, co2, h1, h2, h3, hE⟩
  have hco2 : co2 = co := Option.some.inj (h3.symm.trans hco)
  subst hco2
  subst hE
  rcases args with ⟨e, i, w⟩
  have he2 : e = true := he
  subst he2
  rw [List.filter_append,
    loopExtend_filter_embedding_on _ i w (create_base md)]
  rfl

/-- C4 witness: the embedding equation at the sample metadata with only
embed_categorical_columns enabled. -/
theorem C4_witness :
    extEmbed.filter isEmbeddingColumn =
      Column.embedding coCol 10 ::
        loopEmbeddings (_create_feature_columns mdEx) :=
  C4_embeddings mdEx argsEmbed extEmbed coCol rfl rfl rfl

/-- C5 counterexample: with all three flags disabled, the derived
bucketized trip_miles descriptor is still produced by
_extend_feature_columns. -/
theorem C5_counterexample :
    argsNone.embed_categorical_columns = false ∧
    argsNone.use_indicator_columns = false ∧
    argsNone.use_wide_columns = false ∧
    _extend_feature_columns (_create_feature_columns mdEx) argsNone =
      some extNone ∧
    Column.bucketized tmCol [5, 10, 15, 20, 25, 30, 35, 40, 45, 50] ∈
      extNone := by
  refine ⟨rfl, rfl, rfl, rfl, ?_⟩
  decide

/-- C5 (amended): the indicator expansions appear only when
use_indicator_columns is enabled and the per-field embeddings only when
embed_categorical_columns is enabled, but the two bucketized ranges, their
cross and the dimension-10 company embedding are added under every flag
configuration. -/
theorem C5_flag_gating (md : Metadata) (args : Args) (ext : List Column)
    (tm ts co : Column)
    (hext : _extend_feature_columns (_create_feature_columns md) args =
      some ext)
    (htm : List.lookup "trip_miles" (_create_feature_columns md) = some tm)
    (hts : List.lookup "trip_seconds" (_create_feature_columns md) = some ts)
    (hco : List.lookup "company" (_create_feature_columns md) = some co) :
    (Column.bucketized tm [5, 10, 15, 20, 25, 30, 35, 40, 45, 50] ∈ ext ∧
     Column.bucketized ts [900, 1800, 2700, 3600] ∈ ext ∧
     Column.crossed ["trip_miles", "trip_seconds"] 10000 ∈ ext ∧
     Column.embedding co 10 ∈ ext) ∧
    (args.use_indicator_columns = false →
      ext.filter isIndicatorColumn = []) ∧
    (args.embed_categorical_columns = false →
      ext.filter isEmbeddingColumn = [Column.embedding co 10]) := by
  rcases extend_eq_some hext with ⟨tm2, ts2, co2, h1, h2, h3, hE⟩
  have htm2 : tm2 = tm := Option.some.inj (h1.symm.trans htm)
  have hts2 : ts2 = ts := Option.some.inj (h2.symm.trans hts)
  have hco2 : co2 = co := Option.some.inj (h3.symm.trans hco)
  subst htm2 hts2 hco2 hE
  rcases args with ⟨e, i, w⟩
  refine ⟨⟨?_, ?_, ?_, ?_⟩, ?_, ?_⟩
  · exact List.mem_append_left _ (by simp)
  · exact List.mem_append_left _ (by simp)
  · exact List.mem_append_left _ (by simp)
  · exact List.mem_append_left _ (by simp)
  · intro hi
    have hi2 : i = false := hi
    subst hi2
    rw [List.filter_append,
      loopExtend_filter_indicator_off _ e w (create_base md)]
    rfl
  · intro he
    have he2 : e = false := he
    subst he2
    rw [List.filter_append,
      loopExtend_filter_embedding_off _ i w (create_base md)]
    rfl

/-- C5 witness: the unconditional derived descriptors and the empty
indicator and loop-embedding parts at the sample metadata with all flags
disabled. -/
theorem C5_witness :
    Column.bucketized tmCol [5, 10, 15, 20, 25, 30, 35, 40, 45, 50] ∈
      extNone ∧
    extNone.filter isIndicatorColumn = [] ∧
    extNone.filter isEmbeddingColumn = [Column.embedding coCol 10] := by
  have h := C5_flag_gating mdEx argsNone extNone tmCol
    (Column.numeric "trip_seconds" none) coCol rfl rfl rfl rfl
  exact ⟨h.1.1, h.2.1 rfl, h.2.2 rfl⟩

/-- C10 counterexample: when the company field is hashed-categorical, the
unconditional dimension-10 company embedding reaches the deep list even
with use_indicator_columns disabled, so an indicator is not the only
descriptor derived from a hashed column that can reach the deep list. -/
theorem C10_counterexample :
    create_wide_and_deep_columns mdCompanyHashed argsNone =
      some (wideCoH, deepCoH) ∧
    argsNone.use_indicator_columns = false ∧
    kind (Column.catHashed "company" 100) = Kind.catHashed ∧
    Column.embedding (Column.catHashed "company" 100) 10 ∈ deepCoH ∧
    derivesFrom (Column.embedding (Column.catHashed "company" 100) 10)
      (Column.catHashed "company" 100) = true ∧
    isIndicatorColumn
      (Column.embedding (Column.catHashed "company" 100) 10) = false := by
  refine ⟨rfl, rfl, rfl, ?_, ?_, rfl⟩ <;> decide

/-- C10 (amended): a hashed-categorical base descriptor never appears in
the wide or deep output; a descriptor derived from it that reaches the deep
output is its indicator (then use_indicator_columns is enabled) or the
unconditional dimension-10 company embedding (then the company field is the
hashed column itself). -/
theorem C10_hashed_dropped (md : Metadata) (args : Args)
    (wL dL : List Column) (c : Column)
    (h : create_wide_and_deep_columns md args = some (wL, dL))
    (hc : kind c = Kind.catHashed) :
    c ∉ wL ∧ c ∉ dL ∧
    ∀ x ∈ dL, derivesFrom x c = true →
      (x = Column.indicator c ∧ args.use_indicator_columns = true) ∨
      (x = Column.embedding c 10 ∧
        List.lookup "company" (_create_feature_columns md) = some c) := by
  rcases create_eq_some h with ⟨ext, hext, hw, hd⟩
  subst hw hd
  obtain ⟨nm, s, rfl⟩ : ∃ nm s, c = Column.catHashed nm s := by
    cases c <;> first | exact ⟨_, _, rfl⟩ | exact Kind.noConfusion hc
  rcases extend_eq_some hext with ⟨tm, ts, co, h1, h2, h3, hE⟩
  subst hE
  refine ⟨?_, ?_, ?_⟩
  · intro hmem
    exact Bool.noConfusion (List.mem_filter.mp hmem).2
  · intro hmem
    exact Bool.noConfusion (List.mem_filter.mp hmem).2
  · intro x hx hder
    have hx2 := List.mem_filter.mp hx
    rcases List.mem_append.mp hx2.1 with hi | hl
    · simp only [List.mem_cons, List.not_mem_nil, or_false] at hi
      rcases hi with rfl | rfl | rfl | rfl
      · exact Bool.noConfusion hx2.2
      · exact Bool.noConfusion hx2.2
      · exact Bool.noConfusion hx2.2
      · have hcoeq : co = Column.catHashed nm s := eq_of_beq hder
        subst hcoeq
        exact Or.inr ⟨rfl, h3⟩
    · rcases mem_of_loopExtend hl with ⟨p, hp, hxe⟩
      have hbase := create_base md p hp
      rcases extendOne_subset p.2 args x hxe with rfl | hemb | ⟨rfl, hind⟩
      · rcases hq : p.2 with nm2 | nm2 | nm2 | nm2 | nm2 | nm2 | nm2 | nm2 <;>
          rw [hq] at hbase hder <;>
          first
            | exact Bool.noConfusion hbase
            | exact Bool.noConfusion hder
      · rcases hq : p.2 with nm2 | ⟨nm2, nb⟩ | ⟨nm2, vb⟩ | nm2 | nm2 | nm2 | nm2 | nm2 <;>
          rw [hq] at hemb <;>
          first
            | exact absurd hemb (List.not_mem_nil x)
            | (simp only [embedOf, List.mem_singleton] at hemb
               subst hemb
               exact Column.noConfusion (eq_of_beq hder))
      · have hpc : p.2 = Column.catHashed nm s := eq_of_beq hder
        rw [hpc]
        exact Or.inl ⟨rfl, hind⟩

/-- C10 witness: the hashed pickup_area descriptor is outside both outputs
of the sample metadata with all flags disabled. -/
theorem C10_witness : paCol ∉ wideNone ∧ paCol ∉ deepNone := by
  have h := C10_hashed_dropped mdEx argsNone wideNone deepNone paCol rfl rfl
  exact ⟨h.1, h.2.1⟩
